import Mathlib

/-!
# mlpack: Kalman helper toolkit and the AMF average initialization rule

Shallow embedding of

* `fastlib/branches/fastlib-stl/mlpack/kalman/kalman_helper.h` (declarations only; the
  bodies live in `kalman_helper.cc`, which is not among the sources, so the operations
  are modelled from the specification, section 4.1), and
* `src/mlpack/methods/amf/init_rules/average_init.hpp`
  (`AverageInitialization::Initialize`, embedded from the source).

Scalars are elements of a field (exact arithmetic); the definitions are generic in the
scalar type and run on `ℚ`.
-/

namespace mlpack

variable {α : Type}

/-! ## Data model -/

/-- Modelled from the spec: the error taxonomy of section 7 (DimensionMismatch,
IndexOutOfRange, SingularMatrix, NotPositiveSemidefinite); no error type is declared in
the sources. -/
inductive LaError
  | DimensionMismatch
  | IndexOutOfRange
  | SingularMatrix
  | NotPositiveSemidefinite
  deriving DecidableEq, Repr

/-- Modelled from the spec: the dense matrix type (`Matrix` of fastlib, `arma::mat` of
Armadillo), which the sources use but do not declare. Section 3: a dense 2D array whose
row and column counts are fixed at construction. `mem` holds the rows. -/
structure mat (α : Type) where
  n_rows : Nat
  n_cols : Nat
  mem : List (List α)
  deriving DecidableEq, Repr

/-- Element access `A(i, j)`, zero-indexed; reads zero outside the stored block. -/
def mat.get [Zero α] (A : mat α) (i j : Nat) : α := (A.mem.getD i []).getD j 0

/-- Allocation of an `n × m` matrix filled elementwise by the doubly nested loop
`for i < n, for j < m: X(i, j) = f i j`. -/
def mat.build (n m : Nat) (f : Nat → Nat → α) : mat α :=
  ⟨n, m, (List.range n).map fun i => (List.range m).map fun j => f i j⟩

/-- A well-formed matrix stores exactly `n_rows` rows of `n_cols` entries each. -/
def mat.WF (A : mat α) : Prop :=
  A.mem.length = A.n_rows ∧ ∀ row ∈ A.mem, row.length = A.n_cols

/-- The mathematical matrix denoted by a stored `n × m` matrix. -/
def mat.toMatrix [Zero α] (A : mat α) (n m : Nat) : Matrix (Fin n) (Fin m) α :=
  fun i j => A.get i j

/-- Modelled from the spec: dense matrix product of the external linear-algebra library
(section 6, matrix multiplication). -/
def mat.mul [Semiring α] (A B : mat α) : mat α :=
  mat.build A.n_rows B.n_cols fun i j =>
    ((List.range A.n_cols).map fun k => A.get i k * B.get k j).sum

/-- Modelled from the spec: elementwise difference of the external linear-algebra
library. -/
def mat.sub [Ring α] (A B : mat α) : mat α :=
  mat.build A.n_rows A.n_cols fun i j => A.get i j - B.get i j

/-- Modelled from the spec: matrix inversion of the external linear-algebra library
(section 6), computed exactly as the adjugate divided by the determinant. -/
def mat.inv [Field α] [DecidableEq α] (C : mat α) : mat α :=
  mat.build C.n_rows C.n_rows fun i j =>
    if h : i < C.n_rows ∧ j < C.n_rows then
      (C.toMatrix C.n_rows C.n_rows).det⁻¹ *
        (C.toMatrix C.n_rows C.n_rows).adjugate ⟨i, h.1⟩ ⟨j, h.2⟩
    else 0

/-- Modelled from the spec: Armadillo `A + c` for a scalar `c`, which adds `c` to every
stored element and keeps the shape. -/
def mat.addScalar [Add α] (A : mat α) (c : α) : mat α :=
  ⟨A.n_rows, A.n_cols, A.mem.map fun row => row.map fun a => a + c⟩

/-! ## Kalman helpers (kalman_helper.h) -/

/-- Modelled from the spec: the body of `schur(a_mat, b_mat, c_mat, d_mat, mat)`, declared
in kalman_helper.h lines 49-55 and defined in the absent kalman_helper.cc. Section 4.1
(3): computes `M = A − B·inv(C)·D`; `C` must be square and invertible; fails with a
singular-matrix error if `C` is singular, and with a dimension error if the shapes do
not conform. -/
def schur [Field α] [DecidableEq α] (a_mat b_mat c_mat d_mat : mat α) :
    Except LaError (mat α) :=
  if c_mat.n_rows = c_mat.n_cols ∧ b_mat.n_rows = a_mat.n_rows ∧ b_mat.n_cols = c_mat.n_rows
      ∧ d_mat.n_rows = c_mat.n_cols ∧ d_mat.n_cols = a_mat.n_cols then
    if (c_mat.toMatrix c_mat.n_rows c_mat.n_rows).det = 0 then .error .SingularMatrix
    else .ok (a_mat.sub ((b_mat.mul c_mat.inv).mul d_mat))
  else .error .DimensionMismatch

/-- Modelled from the spec: the body of `matrix_concatenate_col_init(a_mat, b_mat, x_mat)`,
declared in kalman_helper.h lines 64-68 and defined in the absent kalman_helper.cc.
Section 4.1 (4): allocates and fills `X = [A | B]`; requires equal row counts. -/
def matrix_concatenate_col_init [Zero α] (a_mat b_mat : mat α) : Except LaError (mat α) :=
  if a_mat.n_rows = b_mat.n_rows then
    .ok (mat.build a_mat.n_rows (a_mat.n_cols + b_mat.n_cols) fun i j =>
      if j < a_mat.n_cols then a_mat.get i j else b_mat.get i (j - a_mat.n_cols))
  else .error .DimensionMismatch

/-- Modelled from the spec: the body of
`extract_sub_matrix_init(a_mat, r_in, r_out, c_in, c_out, x_mat)`, declared in
kalman_helper.h lines 80-88 and defined in the absent kalman_helper.cc. Section 4.1 (6):
allocates and fills `X` with the closed interval of rows `[r_in, r_out]` and columns
`[c_in, c_out]` of `A` (inclusive, zero-indexed); fails with a range error if indices
are out of bounds or `r_in > r_out` or `c_in > c_out`. -/
def extract_sub_matrix_init [Zero α] (a_mat : mat α) (r_in r_out c_in c_out : Nat) :
    Except LaError (mat α) :=
  if r_in ≤ r_out ∧ r_out < a_mat.n_rows ∧ c_in ≤ c_out ∧ c_out < a_mat.n_cols then
    .ok (mat.build (r_out - r_in + 1) (c_out - c_in + 1) fun i j =>
      a_mat.get (r_in + i) (c_in + j))
  else .error .IndexOutOfRange

/-- Modelled from the spec: the body of
`set_portion_of_matrix(a_mat, r_in, r_out, c_in, c_out, x_mat)`, declared in
kalman_helper.h lines 111-119 and defined in the absent kalman_helper.cc. Section 4.1
(9): writes `A` into the sub-block rows `[r_in, r_out]`, columns `[c_in, c_out]` of the
pre-allocated `X`; fails if the sub-block size differs from the size of `A`, or if the
indices exceed the bounds of `X`. -/
def set_portion_of_matrix [Zero α] (a_mat : mat α) (r_in r_out c_in c_out : Nat)
    (x_mat : mat α) : Except LaError (mat α) :=
  if r_out < x_mat.n_rows ∧ c_out < x_mat.n_cols then
    if r_in + a_mat.n_rows = r_out + 1 ∧ c_in + a_mat.n_cols = c_out + 1 then
      .ok (mat.build x_mat.n_rows x_mat.n_cols fun i j =>
        if r_in ≤ i ∧ i ≤ r_out ∧ c_in ≤ j ∧ j ≤ c_out then a_mat.get (i - r_in) (j - c_in)
        else x_mat.get i j)
    else .error .DimensionMismatch
  else .error .IndexOutOfRange

/-! ## AMF average initialization (average_init.hpp) -/

namespace amf

/-- Modelled from the spec: Armadillo `randu(n_rows, n_cols)`, the uniform-random fill of
section 6. It resizes its target to `n_rows × n_cols`, discarding what it held, and
stores one noise sample per element; `noise i j` is the sample drawn for element
`(i, j)`. -/
def randu (n_rows n_cols : Nat) (noise : Nat → Nat → α) : mat α :=
  mat.build n_rows n_cols noise

/-- The elements visited by `for (it = V.begin(); it != V.end(); it++)`
(average_init.hpp line 55), column by column. -/
def entries [Zero α] (V : mat α) : List α :=
  ((List.range V.n_cols).map fun c => (List.range V.n_rows).map fun r => V.get r c).flatten

/-- The local variables `V_avg`, `count` and `min` of `Initialize`
(average_init.hpp lines 52-54). -/
structure LoopState (α : Type) where
  V_avg : α
  count : Nat
  min : α

/-- One iteration of the loop body, average_init.hpp lines 57-62:
`if (*it != 0) { count++; V_avg += *it; if (*it < min) min = *it; }`. -/
def loopStep [LinearOrderedField α] (s : LoopState α) (it : α) : LoopState α :=
  if it ≠ 0 then
    { V_avg := s.V_avg + it, count := s.count + 1, min := if it < s.min then it else s.min }
  else s

/-- The whole loop of average_init.hpp lines 52-63, started from `V_avg = 0`,
`count = 0`, `min = DBL_MAX`. The constant `DBL_MAX` comes from the C library header
and is a parameter here. -/
def loop [LinearOrderedField α] (DBL_MAX : α) (V : mat α) : LoopState α :=
  (entries V).foldl loopStep { V_avg := 0, count := 0, min := DBL_MAX }

/-- The argument of `sqrt` on average_init.hpp line 64:
`((V_avg / (n * m)) - min) / r`. The matrix holds `n * m` elements, so the product
does not wrap in `size_t`. -/
def sqrtArg [LinearOrderedField α] (DBL_MAX : α) (V : mat α) (r : Nat) : α :=
  (((loop DBL_MAX V).V_avg / ((V.n_rows * V.n_cols : Nat) : α)) - (loop DBL_MAX V).min) / (r : α)

/-- The function `AverageInitialization::Initialize(V, r, W, H)`, average_init.hpp lines
43-72. The library square root `sqrt`, the constant `DBL_MAX` and the noise drawn by the
two `randu` calls are parameters; the incoming contents of `W` and `H` are overwritten by
`randu`. Returns the final `(W, H)`. -/
def AverageInitialization.Initialize [LinearOrderedField α] (sqrt : α → α) (DBL_MAX : α)
    (noiseW noiseH : Nat → Nat → α) (V : mat α) (r : Nat) (_W _H : mat α) : mat α × mat α :=
  let n := V.n_rows
  let m := V.n_cols
  let V_avg := sqrt (sqrtArg DBL_MAX V r)
  let W := randu n r noiseW
  let H := randu r m noiseH
  (W.addScalar V_avg, H.addScalar V_avg)

/-! ### Reference quantities, independent of the loop -/

/-- The set of nonzero entries of `V`. -/
def nonzeroEntries [Zero α] (V : mat α) : Set α :=
  {x | x ≠ 0 ∧ ∃ i j, i < V.n_rows ∧ j < V.n_cols ∧ V.get i j = x}

/-- The sum of all `n * m` entries of `V`. -/
def sumEntries [LinearOrderedField α] (V : mat α) : α :=
  ∑ i in Finset.range V.n_rows, ∑ j in Finset.range V.n_cols, V.get i j

/-- The sum of the nonzero entries of `V`. -/
def sumNonzero [LinearOrderedField α] (V : mat α) : α :=
  ∑ i in Finset.range V.n_rows, ∑ j in Finset.range V.n_cols,
    if V.get i j ≠ 0 then V.get i j else 0

/-- The number of nonzero entries of `V`. -/
def countNonzero [LinearOrderedField α] (V : mat α) : Nat :=
  ∑ i in Finset.range V.n_rows, ∑ j in Finset.range V.n_cols,
    if V.get i j ≠ 0 then 1 else 0

end amf

/-! ## Basic facts about the matrix model -/

theorem mat.build_wf (n m : Nat) (f : Nat → Nat → α) : (mat.build n m f).WF := by
  constructor
  · simp [mat.build]
  · intro row hrow
    simp only [mat.build, List.mem_map, List.mem_range] at hrow
    obtain ⟨i, _, rfl⟩ := hrow
    simp [mat.build]

theorem mat.get_build [Zero α] {n m : Nat} (f : Nat → Nat → α) {i j : Nat}
    (hi : i < n) (hj : j < m) : (mat.build n m f).get i j = f i j := by
  simp [mat.build, mat.get, List.getD_eq_getElem?_getD, hi, hj]

theorem mat.eq_build [Zero α] (A : mat α) (h : A.WF) :
    A = mat.build A.n_rows A.n_cols A.get := by
  obtain ⟨n, m, rows⟩ := A
  obtain ⟨h1, h2⟩ := h
  simp only at h1 h2
  simp only [mat.build, mat.mk.injEq, true_and]
  apply List.ext_getElem
  · simp [h1]
  · intro i hi _
    apply List.ext_getElem
    · simp [h2 _ (List.getElem_mem hi)]
    · intro j hj _
      simp [mat.get, List.getD_eq_getElem?_getD, hi, hj]

theorem mat.build_congr {n m : Nat} {f g : Nat → Nat → α}
    (h : ∀ i j, i < n → j < m → f i j = g i j) : mat.build n m f = mat.build n m g := by
  simp only [mat.build, mat.mk.injEq, true_and]
  apply List.map_congr_left
  intro i hi
  apply List.map_congr_left
  intro j hj
  exact h i j (List.mem_range.mp hi) (List.mem_range.mp hj)

theorem mat.addScalar_build [Add α] (n m : Nat) (f : Nat → Nat → α) (c : α) :
    (mat.build n m f).addScalar c = mat.build n m fun i j => f i j + c := by
  simp [mat.addScalar, mat.build, List.map_map, Function.comp_def]

theorem list_sum_range_map [AddCommMonoid α] (n : Nat) (f : Nat → α) :
    ((List.range n).map f).sum = ∑ j in Finset.range n, f j := by
  induction n with
  | zero => simp
  | succ n ih => simp [List.range_succ, Finset.sum_range_succ, ih]

theorem mat.toMatrix_build [Zero α] (n m : Nat) (f : Nat → Nat → α) :
    (mat.build n m f).toMatrix n m = fun (i : Fin n) (j : Fin m) => f i j := by
  funext i j
  exact mat.get_build f i.2 j.2

theorem mat.toMatrix_mul [Semiring α] (A B : mat α) (n k m : Nat)
    (hn : A.n_rows = n) (hk : A.n_cols = k) (hm : B.n_cols = m) :
    (A.mul B).toMatrix n m = A.toMatrix n k * B.toMatrix k m := by
  subst hn hk hm
  rw [mat.mul, mat.toMatrix_build]
  funext i j
  rw [Matrix.mul_apply, list_sum_range_map, Finset.sum_range]
  rfl

theorem mat.toMatrix_sub [Ring α] (A B : mat α) (n m : Nat)
    (hn : A.n_rows = n) (hm : A.n_cols = m) :
    (A.sub B).toMatrix n m = A.toMatrix n m - B.toMatrix n m := by
  subst hn hm
  rw [mat.sub, mat.toMatrix_build]
  rfl

theorem mat.toMatrix_inv [Field α] [DecidableEq α] (C : mat α) (k : Nat) (hk : C.n_rows = k) :
    C.inv.toMatrix k k = (C.toMatrix k k)⁻¹ := by
  subst hk
  rw [mat.inv, mat.toMatrix_build, Matrix.inv_def, Ring.inverse_eq_inv']
  funext i j
  simp [i.2, j.2]

/-- Extraction of a block returns `A` as soon as the block has the shape of `A` and
agrees with it entry by entry. -/
theorem extract_eq_of_get [Zero α] (X A : mat α) (hA : A.WF) (r_in r_out c_in c_out : Nat)
    (hr : r_in ≤ r_out) (hr2 : r_out < X.n_rows) (hc : c_in ≤ c_out) (hc2 : c_out < X.n_cols)
    (hrows : r_out - r_in + 1 = A.n_rows) (hcols : c_out - c_in + 1 = A.n_cols)
    (hget : ∀ i j, i < A.n_rows → j < A.n_cols → X.get (r_in + i) (c_in + j) = A.get i j) :
    extract_sub_matrix_init X r_in r_out c_in c_out = .ok A := by
  have hA2 := mat.eq_build A hA
  simp only [extract_sub_matrix_init, hr, hr2, hc, hc2, and_self, if_true]
  rw [hA2, hrows, hcols]
  exact congrArg _ (mat.build_congr hget)

/-! ## Claims on the Kalman helpers -/

/-- C2: for conformable `A` (n x m), `B` (n x k), `D` (k x m) and every square invertible
`C` (k x k), `schur A B C D` succeeds and returns the n x m matrix `A - B * inv(C) * D`,
where `inv(C)` is the inverse of `C` (so `C * inv(C) = 1`), in exact arithmetic over a
field; in particular for `A = [[4]]`, `B = [[2]]`, `C = [[1]]`, `D = [[2]]` the result
is `[[0]]`. -/
theorem schur_eq_complement [Field α] [DecidableEq α] (a_mat b_mat c_mat d_mat : mat α)
    (n m k : Nat)
    (ha : a_mat.n_rows = n ∧ a_mat.n_cols = m) (hb : b_mat.n_rows = n ∧ b_mat.n_cols = k)
    (hc : c_mat.n_rows = k ∧ c_mat.n_cols = k) (hd : d_mat.n_rows = k ∧ d_mat.n_cols = m)
    (hinv : IsUnit (c_mat.toMatrix k k)) :
    (∃ M, schur a_mat b_mat c_mat d_mat = .ok M ∧ M.WF ∧ M.n_rows = n ∧ M.n_cols = m ∧
      c_mat.toMatrix k k * (c_mat.toMatrix k k)⁻¹ = 1 ∧
      M.toMatrix n m
        = a_mat.toMatrix n m - b_mat.toMatrix n k * (c_mat.toMatrix k k)⁻¹ * d_mat.toMatrix k m) ∧
    schur (⟨1, 1, [[4]]⟩ : mat α) ⟨1, 1, [[2]]⟩ ⟨1, 1, [[1]]⟩ ⟨1, 1, [[2]]⟩
      = .ok ⟨1, 1, [[0]]⟩ := by
  constructor
  · obtain ⟨ha1, ha2⟩ := ha
    obtain ⟨hb1, hb2⟩ := hb
    obtain ⟨hc1, hc2⟩ := hc
    obtain ⟨hd1, hd2⟩ := hd
    have hunit := (Matrix.isUnit_iff_isUnit_det _).mp hinv
    have hdet : (c_mat.toMatrix c_mat.n_rows c_mat.n_rows).det ≠ 0 := by
      rw [hc1]
      exact hunit.ne_zero
    refine ⟨_, (if_pos ⟨hc1.trans hc2.symm, hb1.trans ha1.symm, hb2.trans hc1.symm,
      hd1.trans hc2.symm, hd2.trans ha2.symm⟩).trans (if_neg hdet), mat.build_wf _ _ _,
      ha1, ha2, Matrix.mul_nonsing_inv _ hunit, ?_⟩
    rw [mat.toMatrix_sub _ _ n m ha1 ha2,
      mat.toMatrix_mul (b_mat.mul c_mat.inv) d_mat n k m hb1 hc1 hd2,
      mat.toMatrix_mul b_mat c_mat.inv n k k hb1 hb2 hc1,
      mat.toMatrix_inv c_mat k hc1]
  · simp [schur, mat.get, mat.sub, mat.mul, mat.inv, mat.build, mat.toMatrix, List.range_succ]
    norm_num

/-- Witness for C2: the 1 x 1 scenario of the specification, `4 - 2 * 1 * 2 = 0`. -/
theorem schur_eq_complement_witness :
    IsUnit ((⟨1, 1, [[1]]⟩ : mat ℚ).toMatrix 1 1) ∧
    ((∃ M, schur (⟨1, 1, [[4]]⟩ : mat ℚ) ⟨1, 1, [[2]]⟩ ⟨1, 1, [[1]]⟩ ⟨1, 1, [[2]]⟩ = .ok M ∧
      M.WF ∧ M.n_rows = 1 ∧ M.n_cols = 1 ∧
      (⟨1, 1, [[1]]⟩ : mat ℚ).toMatrix 1 1 * ((⟨1, 1, [[1]]⟩ : mat ℚ).toMatrix 1 1)⁻¹ = 1 ∧
      M.toMatrix 1 1
        = (⟨1, 1, [[4]]⟩ : mat ℚ).toMatrix 1 1
          - (⟨1, 1, [[2]]⟩ : mat ℚ).toMatrix 1 1 * ((⟨1, 1, [[1]]⟩ : mat ℚ).toMatrix 1 1)⁻¹
            * (⟨1, 1, [[2]]⟩ : mat ℚ).toMatrix 1 1) ∧
    schur (⟨1, 1, [[4]]⟩ : mat ℚ) ⟨1, 1, [[2]]⟩ ⟨1, 1, [[1]]⟩ ⟨1, 1, [[2]]⟩
      = .ok ⟨1, 1, [[0]]⟩) := by
  have hunit : IsUnit ((⟨1, 1, [[1]]⟩ : mat ℚ).toMatrix 1 1) := by
    rw [Matrix.isUnit_iff_isUnit_det]
    simp [Matrix.det_fin_one, mat.toMatrix, mat.get]
  exact ⟨hunit, schur_eq_complement ⟨1, 1, [[4]]⟩ ⟨1, 1, [[2]]⟩ ⟨1, 1, [[1]]⟩ ⟨1, 1, [[2]]⟩
    1 1 1 ⟨rfl, rfl⟩ ⟨rfl, rfl⟩ ⟨rfl, rfl⟩ ⟨rfl, rfl⟩ hunit⟩

/-- C3: for every matrix `A` and indices with `r_in <= r_out < rows(A)` and
`c_in <= c_out < cols(A)`, `extract_sub_matrix_init A r_in r_out c_in c_out` succeeds with
a matrix `X` of shape `(r_out - r_in + 1) x (c_out - c_in + 1)` such that
`X[i][j] = A[r_in + i][c_in + j]` (zero-indexed, both ends inclusive); in particular
extracting rows 1..2, columns 0..0 of `[[1,2],[3,4],[5,6]]` yields `[[3],[5]]`. -/
theorem extract_sub_matrix_init_block [Semiring α] (a_mat : mat α)
    (r_in r_out c_in c_out : Nat)
    (hr : r_in ≤ r_out) (hr2 : r_out < a_mat.n_rows)
    (hc : c_in ≤ c_out) (hc2 : c_out < a_mat.n_cols) :
    (∃ X, extract_sub_matrix_init a_mat r_in r_out c_in c_out = .ok X ∧ X.WF ∧
      X.n_rows = r_out - r_in + 1 ∧ X.n_cols = c_out - c_in + 1 ∧
      ∀ i j, i < r_out - r_in + 1 → j < c_out - c_in + 1 →
        X.get i j = a_mat.get (r_in + i) (c_in + j)) ∧
    extract_sub_matrix_init (⟨3, 2, [[1, 2], [3, 4], [5, 6]]⟩ : mat α) 1 2 0 0
      = .ok ⟨2, 1, [[3], [5]]⟩ := by
  refine ⟨⟨_, if_pos ⟨hr, hr2, hc, hc2⟩, mat.build_wf _ _ _,
    rfl, rfl, fun i j hi hj => mat.get_build _ hi hj⟩, ?_⟩
  simp [extract_sub_matrix_init, mat.build, mat.get, List.range_succ]

/-- Witness for C3: rows 1..2, column 0 of the 3 x 2 matrix of the specification. -/
theorem extract_sub_matrix_init_block_witness :
    ((1 : Nat) ≤ 2 ∧ 2 < (⟨3, 2, [[1, 2], [3, 4], [5, 6]]⟩ : mat ℚ).n_rows ∧
      (0 : Nat) ≤ 0 ∧ 0 < (⟨3, 2, [[1, 2], [3, 4], [5, 6]]⟩ : mat ℚ).n_cols) ∧
    ((∃ X, extract_sub_matrix_init (⟨3, 2, [[1, 2], [3, 4], [5, 6]]⟩ : mat ℚ) 1 2 0 0 = .ok X ∧
      X.WF ∧ X.n_rows = 2 - 1 + 1 ∧ X.n_cols = 0 - 0 + 1 ∧
      ∀ i j, i < 2 - 1 + 1 → j < 0 - 0 + 1 →
        X.get i j = (⟨3, 2, [[1, 2], [3, 4], [5, 6]]⟩ : mat ℚ).get (1 + i) (0 + j)) ∧
    extract_sub_matrix_init (⟨3, 2, [[1, 2], [3, 4], [5, 6]]⟩ : mat ℚ) 1 2 0 0
      = .ok ⟨2, 1, [[3], [5]]⟩) :=
  ⟨by decide, extract_sub_matrix_init_block ⟨3, 2, [[1, 2], [3, 4], [5, 6]]⟩ 1 2 0 0
    (by decide) (by decide) (by decide) (by decide)⟩

/-- C4: for every pair of non-empty matrices `A` (n x p) and `B` (n x q) with equal row
counts, `matrix_concatenate_col_init A B` succeeds with some `X`, and
`extract_sub_matrix_init X 0 (n-1) 0 (p-1)` returns exactly `A` while
`extract_sub_matrix_init X 0 (n-1) p (p+q-1)` returns exactly `B`. -/
theorem concatenate_col_extract_roundtrip [Zero α] (a_mat b_mat : mat α)
    (ha : a_mat.WF) (hb : b_mat.WF)
    (hn : a_mat.n_rows = b_mat.n_rows) (hn0 : 0 < a_mat.n_rows)
    (hp : 0 < a_mat.n_cols) (hq : 0 < b_mat.n_cols) :
    ∃ X, matrix_concatenate_col_init a_mat b_mat = .ok X ∧
      extract_sub_matrix_init X 0 (a_mat.n_rows - 1) 0 (a_mat.n_cols - 1) = .ok a_mat ∧
      extract_sub_matrix_init X 0 (a_mat.n_rows - 1) a_mat.n_cols
        (a_mat.n_cols + b_mat.n_cols - 1) = .ok b_mat := by
  refine ⟨_, if_pos hn, ?_, ?_⟩
  · apply extract_eq_of_get _ _ ha
    · omega
    · show a_mat.n_rows - 1 < a_mat.n_rows
      omega
    · omega
    · show a_mat.n_cols - 1 < a_mat.n_cols + b_mat.n_cols
      omega
    · omega
    · omega
    · intro i j hi hj
      rw [mat.get_build _ (by omega) (by omega)]
      simp [hj]
  · apply extract_eq_of_get _ _ hb
    · omega
    · show a_mat.n_rows - 1 < a_mat.n_rows
      omega
    · omega
    · show a_mat.n_cols + b_mat.n_cols - 1 < a_mat.n_cols + b_mat.n_cols
      omega
    · omega
    · omega
    · intro i j hi hj
      rw [mat.get_build _ (by omega) (by omega)]
      simp

/-- Witness for C4: `A = [[1],[2]]` (2 x 1) and `B = [[3,4],[5,6]]` (2 x 2). -/
theorem concatenate_col_extract_roundtrip_witness :
    ((⟨2, 1, [[1], [2]]⟩ : mat ℚ).WF ∧ (⟨2, 2, [[3, 4], [5, 6]]⟩ : mat ℚ).WF) ∧
    ∃ X, matrix_concatenate_col_init (⟨2, 1, [[1], [2]]⟩ : mat ℚ) ⟨2, 2, [[3, 4], [5, 6]]⟩
        = .ok X ∧
      extract_sub_matrix_init X 0 (2 - 1) 0 (1 - 1) = .ok ⟨2, 1, [[1], [2]]⟩ ∧
      extract_sub_matrix_init X 0 (2 - 1) 1 (1 + 2 - 1) = .ok ⟨2, 2, [[3, 4], [5, 6]]⟩ :=
  ⟨⟨by simp [mat.WF], by simp [mat.WF]⟩,
    concatenate_col_extract_roundtrip ⟨2, 1, [[1], [2]]⟩ ⟨2, 2, [[3, 4], [5, 6]]⟩
      (by simp [mat.WF]) (by simp [mat.WF]) rfl (by decide) (by decide) (by decide)⟩

/-- C5: for every pre-allocated matrix `X`, every in-bounds block
`r_in <= r_out < rows(X)`, `c_in <= c_out < cols(X)`, and every matrix `A` of shape
`(r_out - r_in + 1) x (c_out - c_in + 1)`: `set_portion_of_matrix A r_in r_out c_in c_out X`
succeeds, keeps the shape of `X`, and `extract_sub_matrix_init` of the same block of the
result returns exactly `A`. -/
theorem set_portion_extract_roundtrip [Zero α] (a_mat x_mat : mat α)
    (r_in r_out c_in c_out : Nat) (ha : a_mat.WF)
    (hr : r_in ≤ r_out) (hr2 : r_out < x_mat.n_rows)
    (hc : c_in ≤ c_out) (hc2 : c_out < x_mat.n_cols)
    (hrows : a_mat.n_rows = r_out - r_in + 1) (hcols : a_mat.n_cols = c_out - c_in + 1) :
    ∃ X, set_portion_of_matrix a_mat r_in r_out c_in c_out x_mat = .ok X ∧
      X.n_rows = x_mat.n_rows ∧ X.n_cols = x_mat.n_cols ∧
      extract_sub_matrix_init X r_in r_out c_in c_out = .ok a_mat := by
  have e1 : r_in + a_mat.n_rows = r_out + 1 := by omega
  have e2 : c_in + a_mat.n_cols = c_out + 1 := by omega
  refine ⟨_, (if_pos ⟨hr2, hc2⟩).trans (if_pos ⟨e1, e2⟩), rfl, rfl, ?_⟩
  refine extract_eq_of_get _ a_mat ha r_in r_out c_in c_out hr ?_ hc ?_ hrows.symm hcols.symm ?_
  · exact hr2
  · exact hc2
  intro i j hi hj
  rw [mat.get_build _ (by omega) (by omega)]
  have : r_in ≤ r_in + i ∧ r_in + i ≤ r_out ∧ c_in ≤ c_in + j ∧ c_in + j ≤ c_out := by omega
  simp [this]

/-- Witness for C5: writing `[[7, 8]]` into row 1, columns 0..1 of a 3 x 2 matrix. -/
theorem set_portion_extract_roundtrip_witness :
    (⟨1, 2, [[7, 8]]⟩ : mat ℚ).WF ∧
    ∃ X, set_portion_of_matrix (⟨1, 2, [[7, 8]]⟩ : mat ℚ) 1 1 0 1
        ⟨3, 2, [[1, 2], [3, 4], [5, 6]]⟩ = .ok X ∧
      X.n_rows = 3 ∧ X.n_cols = 2 ∧
      extract_sub_matrix_init X 1 1 0 1 = .ok ⟨1, 2, [[7, 8]]⟩ :=
  ⟨by simp [mat.WF],
    set_portion_extract_roundtrip ⟨1, 2, [[7, 8]]⟩ ⟨3, 2, [[1, 2], [3, 4], [5, 6]]⟩ 1 1 0 1
      (by simp [mat.WF]) (by decide) (by decide) (by decide) (by decide) rfl rfl⟩

/-! ## The loop of `Initialize` -/

namespace amf

section loopLemmas
variable [LinearOrderedField α]

theorem foldl_loopStep_V_avg (l : List α) (s : LoopState α) :
    (l.foldl loopStep s).V_avg = s.V_avg + l.sum := by
  induction l generalizing s with
  | nil => simp
  | cons a l ih =>
    rw [List.foldl_cons, ih, List.sum_cons]
    by_cases ha : a = 0
    · simp [loopStep, ha]
    · simp [loopStep, ha, add_assoc]

theorem loopStep_min_le (s : LoopState α) (a : α) : (loopStep s a).min ≤ s.min := by
  unfold loopStep
  split_ifs with h1 h2
  · exact le_of_lt h2
  · exact le_refl _
  · exact le_refl _

theorem foldl_loopStep_min_le_init (l : List α) (s : LoopState α) :
    (l.foldl loopStep s).min ≤ s.min := by
  induction l generalizing s with
  | nil => simp
  | cons a l ih =>
    rw [List.foldl_cons]
    exact le_trans (ih _) (loopStep_min_le s a)

theorem foldl_loopStep_min_le (l : List α) (s : LoopState α) (x : α) (hx : x ∈ l)
    (hx0 : x ≠ 0) : (l.foldl loopStep s).min ≤ x := by
  induction l generalizing s with
  | nil => simp at hx
  | cons a l ih =>
    rw [List.foldl_cons]
    rcases List.mem_cons.mp hx with rfl | hmem
    · refine le_trans (foldl_loopStep_min_le_init l _) ?_
      simp only [loopStep, hx0, ne_eq, not_false_eq_true, if_true]
      split_ifs with h
      · exact le_refl _
      · exact not_lt.mp h
    · exact ih _ hmem

theorem foldl_loopStep_min_mem (l : List α) (s : LoopState α) :
    (l.foldl loopStep s).min = s.min ∨
      ((l.foldl loopStep s).min ∈ l ∧ (l.foldl loopStep s).min ≠ 0) := by
  induction l generalizing s with
  | nil => simp
  | cons a l ih =>
    rw [List.foldl_cons]
    rcases ih (loopStep s a) with h | ⟨h1, h2⟩
    · rw [h]
      unfold loopStep
      split_ifs with h1 h2
      · right
        exact ⟨List.mem_cons_self _ _, h1⟩
      · left; rfl
      · left; rfl
    · right
      exact ⟨List.mem_cons_of_mem _ h1, h2⟩

/-- A loop that only meets zeros leaves its state untouched. -/
theorem foldl_loopStep_zeros (l : List α) (s : LoopState α) (hz : ∀ x ∈ l, x = 0) :
    l.foldl loopStep s = s := by
  induction l generalizing s with
  | nil => rfl
  | cons a l ih =>
    have ha : a = 0 := hz a (List.mem_cons_self _ _)
    rw [List.foldl_cons]
    have hs : loopStep s a = s := by simp [loopStep, ha]
    rw [hs]
    exact ih s fun x hx => hz x (List.mem_cons_of_mem _ hx)

theorem mem_entries (V : mat α) (x : α) :
    x ∈ entries V ↔ ∃ i j, i < V.n_rows ∧ j < V.n_cols ∧ V.get i j = x := by
  simp only [entries, List.mem_flatten, List.mem_map, List.mem_range]
  constructor
  · rintro ⟨l, ⟨c, hc, rfl⟩, hx⟩
    simp only [List.mem_map, List.mem_range] at hx
    obtain ⟨r, hr, rfl⟩ := hx
    exact ⟨r, c, hr, hc, rfl⟩
  · rintro ⟨i, j, hi, hj, rfl⟩
    exact ⟨_, ⟨j, hj, rfl⟩, by simp only [List.mem_map, List.mem_range]; exact ⟨i, hi, rfl⟩⟩

theorem sum_entries (V : mat α) : (entries V).sum = sumEntries V := by
  simp only [entries, sumEntries, List.sum_flatten, List.map_map]
  rw [list_sum_range_map, Finset.sum_comm]
  apply Finset.sum_congr rfl
  intro j _
  exact list_sum_range_map _ _

theorem sumNonzero_eq (V : mat α) : sumNonzero V = sumEntries V := by
  unfold sumNonzero sumEntries
  apply Finset.sum_congr rfl
  intro i _
  apply Finset.sum_congr rfl
  intro j _
  by_cases h : V.get i j = 0 <;> simp [h]

/-- After the loop, `V_avg` holds the sum of all entries of `V`. -/
theorem loop_V_avg (DBL_MAX : α) (V : mat α) : (loop DBL_MAX V).V_avg = sumEntries V := by
  rw [loop, foldl_loopStep_V_avg, sum_entries]
  simp

/-- After the loop, `min` holds the smallest nonzero entry of `V`, provided `V` has a
nonzero entry and no entry exceeds the initial value `DBL_MAX`. -/
theorem loop_min_isLeast (DBL_MAX : α) (V : mat α)
    (hnz : ∃ i j, i < V.n_rows ∧ j < V.n_cols ∧ V.get i j ≠ 0)
    (hmax : ∀ i j, i < V.n_rows → j < V.n_cols → V.get i j ≤ DBL_MAX) :
    IsLeast (nonzeroEntries V) (loop DBL_MAX V).min := by
  obtain ⟨i, j, hi, hj, hne⟩ := hnz
  have hmem : V.get i j ∈ entries V := (mem_entries V _).mpr ⟨i, j, hi, hj, rfl⟩
  have hle : (loop DBL_MAX V).min ≤ V.get i j := foldl_loopStep_min_le _ _ _ hmem hne
  constructor
  · rcases foldl_loopStep_min_mem (entries V) { V_avg := 0, count := 0, min := DBL_MAX }
      with h | ⟨h1, h2⟩
    · have heq : V.get i j = (loop DBL_MAX V).min := by
        apply le_antisymm
        · have : (loop DBL_MAX V).min = DBL_MAX := h
          rw [this]
          exact hmax i j hi hj
        · exact hle
      rw [← heq]
      exact ⟨hne, i, j, hi, hj, rfl⟩
    · exact ⟨h2, (mem_entries V _).mp h1⟩
  · rintro x ⟨hx0, i', j', hi', hj', rfl⟩
    exact foldl_loopStep_min_le _ _ _ ((mem_entries V _).mpr ⟨i', j', hi', hj', rfl⟩) hx0

/-- The value `Initialize` returns, with the two `randu` fills and the scalar additions
spelled out entry by entry. -/
theorem Initialize_eq_build (sqrt : α → α) (DBL_MAX : α) (noiseW noiseH : Nat → Nat → α)
    (V : mat α) (r : Nat) (W H : mat α) :
    AverageInitialization.Initialize sqrt DBL_MAX noiseW noiseH V r W H
      = (mat.build V.n_rows r fun i j => noiseW i j + sqrt (sqrtArg DBL_MAX V r),
         mat.build r V.n_cols fun i j => noiseH i j + sqrt (sqrtArg DBL_MAX V r)) := by
  simp only [AverageInitialization.Initialize, randu, mat.addScalar_build]

end loopLemmas

end amf

namespace amf

/-- C6: for every `n x m` input matrix `V` and every rank `r`, `Initialize` leaves `W` with
shape `n x r` and `H` with shape `r x m` (both well formed), whatever `W` and `H` held
before the call. -/
theorem Initialize_shape [LinearOrderedField α] (sqrt : α → α) (DBL_MAX : α)
    (noiseW noiseH : Nat → Nat → α) (V : mat α) (r : Nat) (W H : mat α) :
    (AverageInitialization.Initialize sqrt DBL_MAX noiseW noiseH V r W H).1.n_rows = V.n_rows ∧
    (AverageInitialization.Initialize sqrt DBL_MAX noiseW noiseH V r W H).1.n_cols = r ∧
    (AverageInitialization.Initialize sqrt DBL_MAX noiseW noiseH V r W H).1.WF ∧
    (AverageInitialization.Initialize sqrt DBL_MAX noiseW noiseH V r W H).2.n_rows = r ∧
    (AverageInitialization.Initialize sqrt DBL_MAX noiseW noiseH V r W H).2.n_cols = V.n_cols ∧
    (AverageInitialization.Initialize sqrt DBL_MAX noiseW noiseH V r W H).2.WF := by
  rw [Initialize_eq_build]
  exact ⟨rfl, rfl, mat.build_wf _ _ _, rfl, rfl, mat.build_wf _ _ _⟩

/-- C7, as stated, fails. (1) For `V = [[1, 9]]` and `r = 4` (no zero entry, average 5,
minimum 1) the code adds `sqrt((5 - 1) / 4) = 1` to the noise, while the claim gives
`sqrt(5 - 1) / 4 = 1/2`: the division by `r` is under the root. (2) For `V = [[4, 0]]` and
`r = 1` the code takes the root of `(4 / 2 - 4) / 1 = -2`, while the claim takes the root
of `avgNonzero - minNonzero = 4 / 1 - 4 = 0`: the sum is divided by `n * m`, not by the
number of nonzero entries. -/
theorem Initialize_base_not_spec_formula :
    ((AverageInitialization.Initialize Real.sqrt (2 ^ 1024 - 2 ^ 971) (fun _ _ => 0)
        (fun _ _ => 0) (⟨1, 2, [[1, 9]]⟩ : mat ℝ) 4 ⟨0, 0, []⟩ ⟨0, 0, []⟩).1.get 0 0 = 0 + 1 ∧
      IsLeast (nonzeroEntries (⟨1, 2, [[1, 9]]⟩ : mat ℝ)) 1 ∧
      (0 : ℝ) + Real.sqrt (sumNonzero (⟨1, 2, [[1, 9]]⟩ : mat ℝ)
          / (countNonzero (⟨1, 2, [[1, 9]]⟩ : mat ℝ) : ℝ) - 1) / ((4 : ℕ) : ℝ) = 0 + 1 / 2) ∧
    (sqrtArg (2 ^ 1024 - 2 ^ 971) (⟨1, 2, [[4, 0]]⟩ : mat ℚ) 1 = -2 ∧
      IsLeast (nonzeroEntries (⟨1, 2, [[4, 0]]⟩ : mat ℚ)) 4 ∧
      sumNonzero (⟨1, 2, [[4, 0]]⟩ : mat ℚ)
          / (countNonzero (⟨1, 2, [[4, 0]]⟩ : mat ℚ) : ℚ) - 4 = 0) := by
  refine ⟨⟨?_, ?_, ?_⟩, ?_, ?_, ?_⟩
  · rw [Initialize_eq_build]
    simp only [mat.get_build _ (show 0 < 1 by decide) (show 0 < 4 by decide)]
    have h : sqrtArg (2 ^ 1024 - 2 ^ 971) (⟨1, 2, [[1, 9]]⟩ : mat ℝ) 4 = 1 := by
      simp [sqrtArg, loop, entries, loopStep, mat.get, List.range_succ]
      norm_num
    rw [h, Real.sqrt_one]
  · constructor
    · exact ⟨one_ne_zero, 0, 0, by decide, by decide, by simp [mat.get]⟩
    · rintro x ⟨_, i, j, hi, hj, rfl⟩
      have hi0 : i = 0 := by simpa using hi
      subst hi0
      have hj2 : j < 2 := hj
      interval_cases j <;> simp [mat.get]
  · have h4 : Real.sqrt 4 = 2 := by
      rw [show (4 : ℝ) = 2 ^ 2 by norm_num]
      exact Real.sqrt_sq (by norm_num)
    have hq : sumNonzero (⟨1, 2, [[1, 9]]⟩ : mat ℝ)
        / (countNonzero (⟨1, 2, [[1, 9]]⟩ : mat ℝ) : ℝ) - 1 = 4 := by
      simp [sumNonzero, countNonzero, mat.get, Finset.sum_range_succ]
      norm_num
    rw [hq, h4]
    norm_num
  · simp [sqrtArg, loop, entries, loopStep, mat.get, List.range_succ]
    norm_num
  · constructor
    · exact ⟨by norm_num, 0, 0, by decide, by decide, by simp [mat.get]⟩
    · rintro x ⟨hx, i, j, hi, hj, rfl⟩
      have hi0 : i = 0 := by simpa using hi
      subst hi0
      have hj2 : j < 2 := hj
      interval_cases j
      · simp [mat.get]
      · exact absurd (by simp [mat.get]) hx
  · simp [sumNonzero, countNonzero, mat.get, Finset.sum_range_succ]

/-- The number of nonzero entries of a matrix without zero entries is `n * m`. -/
theorem countNonzero_of_no_zero [LinearOrderedField α] (V : mat α)
    (hnz : ∀ i j, i < V.n_rows → j < V.n_cols → V.get i j ≠ 0) :
    countNonzero V = V.n_rows * V.n_cols := by
  unfold countNonzero
  have h : ∀ i ∈ Finset.range V.n_rows,
      (∑ j in Finset.range V.n_cols, if V.get i j ≠ 0 then 1 else 0) = V.n_cols := by
    intro i hi
    have h2 : ∀ j ∈ Finset.range V.n_cols, (if V.get i j ≠ 0 then 1 else 0) = 1 := by
      intro j hj
      exact if_pos (hnz i j (Finset.mem_range.mp hi) (Finset.mem_range.mp hj))
    rw [Finset.sum_congr rfl h2]
    simp
  rw [Finset.sum_congr rfl h]
  simp

/-- C7 (amended): for every matrix `V` without zero entries (`n * m >= 1`, entries at most
`DBL_MAX`) and every rank `r >= 1`, every entry of `W` and every entry of `H` produced by
`Initialize` equals its noise sample plus the single base value
`sqrt((avgNonzero(V) - minNonzero(V)) / r)`, where `avgNonzero(V)` is the sum of the
nonzero entries divided by their number, `minNonzero(V)` is the smallest nonzero entry,
and the division by `r` is applied under the square root. -/
theorem Initialize_entry_formula [LinearOrderedField α] (sqrt : α → α) (DBL_MAX : α)
    (noiseW noiseH : Nat → Nat → α) (V : mat α) (r : Nat) (W H : mat α)
    (hpos : 0 < V.n_rows * V.n_cols)
    (hnz : ∀ i j, i < V.n_rows → j < V.n_cols → V.get i j ≠ 0)
    (hmax : ∀ i j, i < V.n_rows → j < V.n_cols → V.get i j ≤ DBL_MAX)
    (_hr : 1 ≤ r) :
    ∃ mn, IsLeast (nonzeroEntries V) mn ∧
      (∀ i j, i < V.n_rows → j < r →
        (AverageInitialization.Initialize sqrt DBL_MAX noiseW noiseH V r W H).1.get i j
          = noiseW i j + sqrt ((sumNonzero V / (countNonzero V : α) - mn) / (r : α))) ∧
      (∀ i j, i < r → j < V.n_cols →
        (AverageInitialization.Initialize sqrt DBL_MAX noiseW noiseH V r W H).2.get i j
          = noiseH i j + sqrt ((sumNonzero V / (countNonzero V : α) - mn) / (r : α))) := by
  have hn : 0 < V.n_rows := Nat.pos_of_mul_pos_right hpos
  have hm : 0 < V.n_cols := Nat.pos_of_mul_pos_left hpos
  have hex : ∃ i j, i < V.n_rows ∧ j < V.n_cols ∧ V.get i j ≠ 0 :=
    ⟨0, 0, hn, hm, hnz 0 0 hn hm⟩
  have harg : sqrtArg DBL_MAX V r
      = (sumNonzero V / (countNonzero V : α) - (loop DBL_MAX V).min) / (r : α) := by
    rw [sqrtArg, loop_V_avg, sumNonzero_eq, countNonzero_of_no_zero V hnz]
  refine ⟨(loop DBL_MAX V).min, loop_min_isLeast DBL_MAX V hex hmax, ?_, ?_⟩
  · intro i j hi hj
    rw [Initialize_eq_build, ← harg]
    exact mat.get_build _ hi hj
  · intro i j hi hj
    rw [Initialize_eq_build, ← harg]
    exact mat.get_build _ hi hj

/-- Witness for C7 (amended): `V = [[1, 9]]`, rank 4, over the reals with the real square
root and zero noise. -/
theorem Initialize_entry_formula_witness :
    ((0 < (⟨1, 2, [[1, 9]]⟩ : mat ℝ).n_rows * (⟨1, 2, [[1, 9]]⟩ : mat ℝ).n_cols) ∧
      (∀ i j, i < 1 → j < 2 → (⟨1, 2, [[1, 9]]⟩ : mat ℝ).get i j ≠ 0) ∧
      (∀ i j, i < 1 → j < 2 → (⟨1, 2, [[1, 9]]⟩ : mat ℝ).get i j ≤ 2 ^ 1024 - 2 ^ 971)) ∧
    ∃ mn, IsLeast (nonzeroEntries (⟨1, 2, [[1, 9]]⟩ : mat ℝ)) mn ∧
      (∀ i j, i < 1 → j < 4 →
        (AverageInitialization.Initialize Real.sqrt (2 ^ 1024 - 2 ^ 971) (fun _ _ => 0)
          (fun _ _ => 0) (⟨1, 2, [[1, 9]]⟩ : mat ℝ) 4 ⟨0, 0, []⟩ ⟨0, 0, []⟩).1.get i j
          = 0 + Real.sqrt ((sumNonzero (⟨1, 2, [[1, 9]]⟩ : mat ℝ)
              / (countNonzero (⟨1, 2, [[1, 9]]⟩ : mat ℝ) : ℝ) - mn) / ((4 : ℕ) : ℝ))) ∧
      (∀ i j, i < 4 → j < 2 →
        (AverageInitialization.Initialize Real.sqrt (2 ^ 1024 - 2 ^ 971) (fun _ _ => 0)
          (fun _ _ => 0) (⟨1, 2, [[1, 9]]⟩ : mat ℝ) 4 ⟨0, 0, []⟩ ⟨0, 0, []⟩).2.get i j
          = 0 + Real.sqrt ((sumNonzero (⟨1, 2, [[1, 9]]⟩ : mat ℝ)
              / (countNonzero (⟨1, 2, [[1, 9]]⟩ : mat ℝ) : ℝ) - mn) / ((4 : ℕ) : ℝ))) := by
  have h1 : ∀ i j, i < 1 → j < 2 → (⟨1, 2, [[1, 9]]⟩ : mat ℝ).get i j ≠ 0 := by
    intro i j hi hj
    interval_cases i
    interval_cases j <;> simp [mat.get]
  have h2 : ∀ i j, i < 1 → j < 2 →
      (⟨1, 2, [[1, 9]]⟩ : mat ℝ).get i j ≤ 2 ^ 1024 - 2 ^ 971 := by
    intro i j hi hj
    interval_cases i
    interval_cases j <;> simp [mat.get] <;> norm_num
  exact ⟨⟨by decide, h1, h2⟩,
    Initialize_entry_formula Real.sqrt (2 ^ 1024 - 2 ^ 971) (fun _ _ => 0) (fun _ _ => 0)
      ⟨1, 2, [[1, 9]]⟩ 4 ⟨0, 0, []⟩ ⟨0, 0, []⟩ (by decide) h1 h2 (by decide)⟩

/-- C8, as stated, fails: on the all-zero matrix `V = [[0]]` with rank 1, `Initialize`
reports nothing and returns `W` and `H`, each holding its noise sample plus the library
root of `(0 / 1 - DBL_MAX) / 1 = -DBL_MAX`. -/
theorem Initialize_zero_matrix_returns :
    (∀ i j, (⟨1, 1, [[0]]⟩ : mat ℚ).get i j = 0) ∧
    (∀ (sqrt : ℚ → ℚ) (DBL_MAX : ℚ) (noiseW noiseH : Nat → Nat → ℚ) (W H : mat ℚ),
      AverageInitialization.Initialize sqrt DBL_MAX noiseW noiseH ⟨1, 1, [[0]]⟩ 1 W H
        = (⟨1, 1, [[noiseW 0 0 + sqrt (-DBL_MAX)]]⟩,
           ⟨1, 1, [[noiseH 0 0 + sqrt (-DBL_MAX)]]⟩)) := by
  constructor
  · intro i j
    rcases i with _ | i <;> rcases j with _ | j <;> simp [mat.get]
  · intro sqrt DBL_MAX noiseW noiseH W H
    have h : sqrtArg DBL_MAX (⟨1, 1, [[0]]⟩ : mat ℚ) 1 = -DBL_MAX := by
      simp [sqrtArg, loop, entries, loopStep, mat.get, List.range_succ]
    rw [Initialize_eq_build, h]
    simp [mat.build, List.range_succ]

/-- C8 (amended): for every matrix `V` all of whose entries are zero (`n * m >= 1`) and every
rank `r >= 1`, `Initialize` reports no error: the loop leaves `V_avg = 0`, `count = 0` and
`min = DBL_MAX`, and the function returns `W` (n x r) and `H` (r x m) whose entries are the
noise samples plus the library root of `(0 / (n * m) - DBL_MAX) / r`, a negative
quantity (`DBL_MAX` is positive). -/
theorem Initialize_all_zero_returns [LinearOrderedField α] (sqrt : α → α) (DBL_MAX : α)
    (noiseW noiseH : Nat → Nat → α) (V : mat α) (r : Nat) (W H : mat α)
    (hz : ∀ i j, i < V.n_rows → j < V.n_cols → V.get i j = 0)
    (hD : 0 < DBL_MAX) (_hpos : 0 < V.n_rows * V.n_cols) (hr : 1 ≤ r) :
    ((loop DBL_MAX V).V_avg = 0 ∧ (loop DBL_MAX V).count = 0 ∧
      (loop DBL_MAX V).min = DBL_MAX) ∧
    (sqrtArg DBL_MAX V r
        = (0 / ((V.n_rows * V.n_cols : Nat) : α) - DBL_MAX) / (r : α) ∧
      sqrtArg DBL_MAX V r < 0) ∧
    AverageInitialization.Initialize sqrt DBL_MAX noiseW noiseH V r W H
      = (mat.build V.n_rows r fun i j => noiseW i j
            + sqrt ((0 / ((V.n_rows * V.n_cols : Nat) : α) - DBL_MAX) / (r : α)),
         mat.build r V.n_cols fun i j => noiseH i j
            + sqrt ((0 / ((V.n_rows * V.n_cols : Nat) : α) - DBL_MAX) / (r : α))) := by
  have hloop : loop DBL_MAX V = { V_avg := 0, count := 0, min := DBL_MAX } := by
    apply foldl_loopStep_zeros
    intro x hx
    obtain ⟨i, j, hi, hj, rfl⟩ := (mem_entries V x).mp hx
    exact hz i j hi hj
  have harg : sqrtArg DBL_MAX V r
      = (0 / ((V.n_rows * V.n_cols : Nat) : α) - DBL_MAX) / (r : α) := by
    rw [sqrtArg, hloop]
  have hrpos : (0 : α) < (r : α) := by exact_mod_cast hr
  refine ⟨by simp [hloop], ⟨harg, ?_⟩, ?_⟩
  · rw [harg]
    apply div_neg_of_neg_of_pos _ hrpos
    simpa using hD
  · rw [Initialize_eq_build, harg]

/-- Witness for C8 (amended): the 2 x 1 zero matrix, rank 1, `DBL_MAX = 2^1024 - 2^971`. -/
theorem Initialize_all_zero_returns_witness :
    (∀ i j, i < 2 → j < 1 → (⟨2, 1, [[0], [0]]⟩ : mat ℝ).get i j = 0) ∧
    (((loop (2 ^ 1024 - 2 ^ 971) (⟨2, 1, [[0], [0]]⟩ : mat ℝ)).V_avg = 0 ∧
      (loop (2 ^ 1024 - 2 ^ 971) (⟨2, 1, [[0], [0]]⟩ : mat ℝ)).count = 0 ∧
      (loop (2 ^ 1024 - 2 ^ 971) (⟨2, 1, [[0], [0]]⟩ : mat ℝ)).min = 2 ^ 1024 - 2 ^ 971) ∧
    (sqrtArg (2 ^ 1024 - 2 ^ 971) (⟨2, 1, [[0], [0]]⟩ : mat ℝ) 1
        = (0 / (((2 * 1 : Nat)) : ℝ) - (2 ^ 1024 - 2 ^ 971)) / ((1 : ℕ) : ℝ) ∧
      sqrtArg (2 ^ 1024 - 2 ^ 971) (⟨2, 1, [[0], [0]]⟩ : mat ℝ) 1 < 0) ∧
    AverageInitialization.Initialize Real.sqrt (2 ^ 1024 - 2 ^ 971) (fun _ _ => 0)
        (fun _ _ => 0) (⟨2, 1, [[0], [0]]⟩ : mat ℝ) 1 ⟨0, 0, []⟩ ⟨0, 0, []⟩
      = (mat.build 2 1 fun _ _ => 0
            + Real.sqrt ((0 / (((2 * 1 : Nat)) : ℝ) - (2 ^ 1024 - 2 ^ 971)) / ((1 : ℕ) : ℝ)),
         mat.build 1 1 fun _ _ => 0
            + Real.sqrt ((0 / (((2 * 1 : Nat)) : ℝ) - (2 ^ 1024 - 2 ^ 971)) / ((1 : ℕ) : ℝ)))) := by
  have h1 : ∀ i j, i < 2 → j < 1 → (⟨2, 1, [[0], [0]]⟩ : mat ℝ).get i j = 0 := by
    intro i j hi hj
    interval_cases j
    interval_cases i <;> simp [mat.get]
  exact ⟨h1, Initialize_all_zero_returns Real.sqrt (2 ^ 1024 - 2 ^ 971) (fun _ _ => 0)
    (fun _ _ => 0) ⟨2, 1, [[0], [0]]⟩ 1 ⟨0, 0, []⟩ ⟨0, 0, []⟩ h1 (by norm_num) (by decide)
    (by decide)⟩

/-- C9: for every `n x m` matrix `V` with `n * m > 0` and at least one nonzero entry
(entries at most `DBL_MAX`) and every rank `r >= 1`, the quantity whose square root
`Initialize` adds to `W` and `H` equals `(mean(V) - min) / r`, where `mean(V)` is the sum of
all `n * m` entries divided by `n * m` (the sum the loop accumulates over the nonzero
entries equals the sum of all entries) and `min` is the value the loop leaves in `min`,
the smallest nonzero entry of `V`: the lower bound is subtracted from the average
before the division by the rank, and the root is taken last. -/
theorem sqrtArg_eq_mean_sub_min [LinearOrderedField α] (sqrt : α → α) (DBL_MAX : α)
    (noiseW noiseH : Nat → Nat → α) (V : mat α) (r : Nat) (W H : mat α)
    (_hpos : 0 < V.n_rows * V.n_cols)
    (hnz : ∃ i j, i < V.n_rows ∧ j < V.n_cols ∧ V.get i j ≠ 0)
    (hmax : ∀ i j, i < V.n_rows → j < V.n_cols → V.get i j ≤ DBL_MAX)
    (_hr : 1 ≤ r) :
    ((loop DBL_MAX V).V_avg = sumNonzero V ∧ sumNonzero V = sumEntries V) ∧
    IsLeast (nonzeroEntries V) (loop DBL_MAX V).min ∧
    sqrtArg DBL_MAX V r
      = (sumEntries V / ((V.n_rows * V.n_cols : Nat) : α) - (loop DBL_MAX V).min) / (r : α) ∧
    AverageInitialization.Initialize sqrt DBL_MAX noiseW noiseH V r W H
      = (mat.build V.n_rows r fun i j => noiseW i j
            + sqrt ((sumEntries V / ((V.n_rows * V.n_cols : Nat) : α)
                - (loop DBL_MAX V).min) / (r : α)),
         mat.build r V.n_cols fun i j => noiseH i j
            + sqrt ((sumEntries V / ((V.n_rows * V.n_cols : Nat) : α)
                - (loop DBL_MAX V).min) / (r : α))) := by
  have harg : sqrtArg DBL_MAX V r
      = (sumEntries V / ((V.n_rows * V.n_cols : Nat) : α) - (loop DBL_MAX V).min) / (r : α) := by
    rw [sqrtArg, loop_V_avg]
  refine ⟨⟨?_, sumNonzero_eq V⟩, loop_min_isLeast DBL_MAX V hnz hmax, harg, ?_⟩
  · rw [loop_V_avg, sumNonzero_eq]
  · rw [Initialize_eq_build, harg]

/-- Witness for C9: `V = [[1, 0], [0, 3]]` (two zero entries), rank 2. -/
theorem sqrtArg_eq_mean_sub_min_witness :
    ((∃ i j, i < 2 ∧ j < 2 ∧ (⟨2, 2, [[1, 0], [0, 3]]⟩ : mat ℝ).get i j ≠ 0) ∧
      (∀ i j, i < 2 → j < 2 →
        (⟨2, 2, [[1, 0], [0, 3]]⟩ : mat ℝ).get i j ≤ 2 ^ 1024 - 2 ^ 971)) ∧
    (((loop (2 ^ 1024 - 2 ^ 971) (⟨2, 2, [[1, 0], [0, 3]]⟩ : mat ℝ)).V_avg
        = sumNonzero (⟨2, 2, [[1, 0], [0, 3]]⟩ : mat ℝ) ∧
      sumNonzero (⟨2, 2, [[1, 0], [0, 3]]⟩ : mat ℝ)
        = sumEntries (⟨2, 2, [[1, 0], [0, 3]]⟩ : mat ℝ)) ∧
    IsLeast (nonzeroEntries (⟨2, 2, [[1, 0], [0, 3]]⟩ : mat ℝ))
      (loop (2 ^ 1024 - 2 ^ 971) (⟨2, 2, [[1, 0], [0, 3]]⟩ : mat ℝ)).min ∧
    sqrtArg (2 ^ 1024 - 2 ^ 971) (⟨2, 2, [[1, 0], [0, 3]]⟩ : mat ℝ) 2
      = (sumEntries (⟨2, 2, [[1, 0], [0, 3]]⟩ : mat ℝ) / (((2 * 2 : Nat)) : ℝ)
          - (loop (2 ^ 1024 - 2 ^ 971) (⟨2, 2, [[1, 0], [0, 3]]⟩ : mat ℝ)).min)
        / ((2 : ℕ) : ℝ) ∧
    AverageInitialization.Initialize Real.sqrt (2 ^ 1024 - 2 ^ 971) (fun _ _ => 0)
        (fun _ _ => 0) (⟨2, 2, [[1, 0], [0, 3]]⟩ : mat ℝ) 2 ⟨0, 0, []⟩ ⟨0, 0, []⟩
      = (mat.build 2 2 fun _ _ => 0
            + Real.sqrt ((sumEntries (⟨2, 2, [[1, 0], [0, 3]]⟩ : mat ℝ) / (((2 * 2 : Nat)) : ℝ)
                - (loop (2 ^ 1024 - 2 ^ 971) (⟨2, 2, [[1, 0], [0, 3]]⟩ : mat ℝ)).min)
              / ((2 : ℕ) : ℝ)),
         mat.build 2 2 fun _ _ => 0
            + Real.sqrt ((sumEntries (⟨2, 2, [[1, 0], [0, 3]]⟩ : mat ℝ) / (((2 * 2 : Nat)) : ℝ)
                - (loop (2 ^ 1024 - 2 ^ 971) (⟨2, 2, [[1, 0], [0, 3]]⟩ : mat ℝ)).min)
              / ((2 : ℕ) : ℝ)))) := by
  have h1 : ∃ i j, i < 2 ∧ j < 2 ∧ (⟨2, 2, [[1, 0], [0, 3]]⟩ : mat ℝ).get i j ≠ 0 :=
    ⟨0, 0, by decide, by decide, by simp [mat.get]⟩
  have h2 : ∀ i j, i < 2 → j < 2 →
      (⟨2, 2, [[1, 0], [0, 3]]⟩ : mat ℝ).get i j ≤ 2 ^ 1024 - 2 ^ 971 := by
    intro i j hi hj
    interval_cases i <;> interval_cases j <;> simp [mat.get] <;> norm_num
  exact ⟨⟨h1, h2⟩, sqrtArg_eq_mean_sub_min Real.sqrt (2 ^ 1024 - 2 ^ 971) (fun _ _ => 0)
    (fun _ _ => 0) ⟨2, 2, [[1, 0], [0, 3]]⟩ 2 ⟨0, 0, []⟩ ⟨0, 0, []⟩ (by decide) h1 h2
    (by decide)⟩

/-- C10 fails on the code: `V = [[1, 0]]` has non-negative entries and a nonzero entry, and
with rank 1 the quantity under the square root is `(1 / 2 - 1) / 1 = -1/2`, which is
negative: the sum is averaged over both entries while the minimum skips the zero. -/
theorem sqrtArg_negative_on_matrix_with_zero :
    (∀ i j, 0 ≤ (⟨1, 2, [[1, 0]]⟩ : mat ℚ).get i j) ∧
    (⟨1, 2, [[1, 0]]⟩ : mat ℚ).get 0 0 ≠ 0 ∧
    (loop (2 ^ 1024 - 2 ^ 971) (⟨1, 2, [[1, 0]]⟩ : mat ℚ)).V_avg = 1 ∧
    (loop (2 ^ 1024 - 2 ^ 971) (⟨1, 2, [[1, 0]]⟩ : mat ℚ)).count = 1 ∧
    (loop (2 ^ 1024 - 2 ^ 971) (⟨1, 2, [[1, 0]]⟩ : mat ℚ)).min = 1 ∧
    sqrtArg (2 ^ 1024 - 2 ^ 971) (⟨1, 2, [[1, 0]]⟩ : mat ℚ) 1 = -1 / 2 ∧
    sqrtArg (2 ^ 1024 - 2 ^ 971) (⟨1, 2, [[1, 0]]⟩ : mat ℚ) 1 < 0 := by
  have hloop : loop (2 ^ 1024 - 2 ^ 971) (⟨1, 2, [[1, 0]]⟩ : mat ℚ)
      = { V_avg := 1, count := 1, min := 1 } := by
    simp [loop, entries, loopStep, mat.get, List.range_succ]
    norm_num
  have harg : sqrtArg (2 ^ 1024 - 2 ^ 971) (⟨1, 2, [[1, 0]]⟩ : mat ℚ) 1 = -1 / 2 := by
    rw [sqrtArg, hloop]
    norm_num
  refine ⟨?_, by simp [mat.get], by rw [hloop], by rw [hloop], by rw [hloop], harg, ?_⟩
  · intro i j
    rcases i with _ | i <;> rcases j with _ | _ | j <;> simp [mat.get]
  · rw [harg]
    norm_num

end amf

end mlpack
